import Mathlib

/-!
Shallow embedding of the knowledge-graph storage and recommendation core of the
repository (`src/shared/schema.ts`, `src/server/storage.ts`,
`src/server/db-storage.ts`, `src/server/routes.ts`).

Embedding conventions:
* A JavaScript `Map` keyed by the entity id is embedded as the insertion-ordered
  list of its values (`Map.prototype.values` enumerates in insertion order;
  `Map.prototype.set` overwrites in place when the key is present and appends
  otherwise — see `mapSet`).
* `Date` timestamps are abstract `Nat` instants supplied by the caller.
* `async` plays no role in-process: every storage operation is a pure
  state-passing function.  A thrown JavaScript error is an `Except.error`
  result; operations that can never throw return plain values.
* The durable (PostgreSQL) client has two failure modes, both handled by
  `DbStorage`: the `db` reference is null (connection string absent or client
  construction failed — constant for the process lifetime), or an individual
  query raises.  The first is the `avail : Bool` parameter, the second a
  `DbCall` outcome attached to each query site.
-/

namespace Knowledge

/-- `concepts` table row (src/shared/schema.ts, `Concept`). -/
structure Concept where
  id : Nat
  name : String
  domain : String
  difficulty : String
  description : String
  createdAt : Nat
deriving Repr, DecidableEq

/-- `insertConceptSchema` payload (id and createdAt are assigned by the store). -/
structure InsertConcept where
  name : String
  domain : String
  difficulty : String
  description : String
deriving Repr, DecidableEq

/-- `concept_relationships` table row (src/shared/schema.ts). -/
structure ConceptRelationship where
  id : Nat
  sourceId : Nat
  targetId : Nat
  relationshipType : String
  strength : Nat
  createdAt : Nat
deriving Repr, DecidableEq

/-- `insertConceptRelationshipSchema` payload. -/
structure InsertConceptRelationship where
  sourceId : Nat
  targetId : Nat
  relationshipType : String
  strength : Nat
deriving Repr, DecidableEq

/-- `user_progress` table row (src/shared/schema.ts); this table has no
`createdAt` column. -/
structure UserProgress where
  id : Nat
  userId : Nat
  conceptId : Nat
  isLearned : Bool
  learnedAt : Option Nat
deriving Repr, DecidableEq

/-- `insertUserProgressSchema` payload.  A zod-optional `isLearned` left absent
makes the stored field `undefined`, which every reader of the field treats
exactly like `false` (JavaScript truthiness), so it is normalised to `Bool`
here; an absent `learnedAt` is likewise `none`. -/
structure InsertUserProgress where
  userId : Nat
  conceptId : Nat
  isLearned : Bool
  learnedAt : Option Nat
deriving Repr, DecidableEq

/-- `Partial<InsertUserProgress>`: each field is either absent or present. -/
structure ProgressUpdate where
  userId : Option Nat
  conceptId : Option Nat
  isLearned : Option Bool
  learnedAt : Option (Option Nat)
deriving Repr, DecidableEq

/-- One entry of the `links` array returned by `getKnowledgeGraph()`. -/
structure GraphLink where
  source : Nat
  target : Nat
  type : String
  strength : Nat
deriving Repr, DecidableEq

/-- Return shape of `getKnowledgeGraph()`. -/
structure KnowledgeGraph where
  nodes : List Concept
  links : List GraphLink
deriving Repr, DecidableEq

/-- The only error the storage façade surfaces: `updateUserProgress` throws
`Error` with message `User progress with ID (id) not found`. -/
inductive StorageError where
  | notFound (id : Nat)
deriving Repr, DecidableEq

/-- State of `MemStorage` (src/server/storage.ts): one `Map` of values per
entity plus the monotonically increasing id counters.  Users and chat messages
play no part in any claim and are omitted. -/
structure MemState where
  concepts : List Concept
  conceptRelationships : List ConceptRelationship
  userProgress : List UserProgress
  conceptId : Nat
  relationshipId : Nat
  progressId : Nat
deriving Repr, DecidableEq

/-- JavaScript `Map.prototype.set` on a map keyed by `getId`, embedded on the
insertion-ordered value list: overwrite in place when the key is present,
append otherwise. -/
def mapSet (getId : α → Nat) (key : Nat) (v : α) (l : List α) : List α :=
  if l.any (fun x => getId x == key) then l.map (fun x => if getId x == key then v else x)
  else l ++ [v]

/-- `MemStorage.getConcept` (storage.ts:111). -/
def MemStorage.getConcept (s : MemState) (id : Nat) : Option Concept :=
  s.concepts.find? (fun c => c.id == id)

/-- `MemStorage.getConcepts` (storage.ts:121). -/
def MemStorage.getConcepts (s : MemState) : List Concept :=
  s.concepts

/-- `MemStorage.createConcept` (storage.ts:131): assign the next id, stamp
`createdAt` with the current instant, store, return the stored record. -/
def MemStorage.createConcept (s : MemState) (c : InsertConcept) (now : Nat) :
    Concept × MemState :=
  let id := s.conceptId
  let concept : Concept :=
    { id := id, name := c.name, domain := c.domain, difficulty := c.difficulty,
      description := c.description, createdAt := now }
  (concept,
   { s with concepts := mapSet Concept.id id concept s.concepts, conceptId := id + 1 })

/-- `MemStorage.getConceptRelationships` (storage.ts:144): every edge where the
concept is source or target. -/
def MemStorage.getConceptRelationships (s : MemState) (conceptId : Nat) :
    List ConceptRelationship :=
  s.conceptRelationships.filter (fun r => r.sourceId == conceptId || r.targetId == conceptId)

/-- `MemStorage.createConceptRelationship` (storage.ts:151). -/
def MemStorage.createConceptRelationship (s : MemState) (r : InsertConceptRelationship)
    (now : Nat) : ConceptRelationship × MemState :=
  let id := s.relationshipId
  let rel : ConceptRelationship :=
    { id := id, sourceId := r.sourceId, targetId := r.targetId,
      relationshipType := r.relationshipType, strength := r.strength, createdAt := now }
  (rel,
   { s with conceptRelationships := mapSet ConceptRelationship.id id rel s.conceptRelationships,
            relationshipId := id + 1 })

/-- `MemStorage.getUserProgress` (storage.ts:160). -/
def MemStorage.getUserProgress (s : MemState) (userId : Nat) : List UserProgress :=
  s.userProgress.filter (fun p => p.userId == userId)

/-- `MemStorage.getUserProgressForConcept` (storage.ts:166). -/
def MemStorage.getUserProgressForConcept (s : MemState) (userId conceptId : Nat) :
    Option UserProgress :=
  s.userProgress.find? (fun p => p.userId == userId && p.conceptId == conceptId)

/-- `MemStorage.createUserProgress` (storage.ts:172): unconditionally assigns a
fresh id and stores a new row — no `(userId, conceptId)` uniqueness guard. -/
def MemStorage.createUserProgress (s : MemState) (p : InsertUserProgress) :
    UserProgress × MemState :=
  let id := s.progressId
  let row : UserProgress :=
    { id := id, userId := p.userId, conceptId := p.conceptId,
      isLearned := p.isLearned, learnedAt := p.learnedAt }
  (row,
   { s with userProgress := mapSet UserProgress.id id row s.userProgress, progressId := id + 1 })

/-- JavaScript object spread `\x7b ...existing, ...update \x7d`: a field present in the
update overrides the existing one. -/
def mergeProgress (ex : UserProgress) (u : ProgressUpdate) : UserProgress :=
  { id := ex.id
    userId := u.userId.getD ex.userId
    conceptId := u.conceptId.getD ex.conceptId
    isLearned := u.isLearned.getD ex.isLearned
    learnedAt := u.learnedAt.getD ex.learnedAt }

/-- `MemStorage.updateUserProgress` (storage.ts:179): throws when the id is not
in the map — the throw happens before any mutation, so the state component of
the error branch is the input state. -/
def MemStorage.updateUserProgress (s : MemState) (id : Nat) (u : ProgressUpdate) :
    Except StorageError UserProgress × MemState :=
  match s.userProgress.find? (fun p => p.id == id) with
  | none => (Except.error (StorageError.notFound id), s)
  | some ex =>
    let updated := mergeProgress ex u
    (Except.ok updated,
     { s with userProgress := mapSet UserProgress.id id updated s.userProgress })

/-- Link shape used by both backends: `\x7b source: rel.sourceId, target: rel.targetId,
type: rel.relationshipType, strength: rel.strength \x7d`. -/
def mkLink (r : ConceptRelationship) : GraphLink :=
  { source := r.sourceId, target := r.targetId, type := r.relationshipType,
    strength := r.strength }

/-- `MemStorage.getKnowledgeGraph` (storage.ts:214). -/
def MemStorage.getKnowledgeGraph (s : MemState) : KnowledgeGraph :=
  { nodes := s.concepts, links := s.conceptRelationships.map mkLink }

/-- `p` occurs as a contiguous run inside `l`. -/
def listInfixCheck (p : List Char) : List Char → Bool
  | [] => p.isEmpty
  | c :: rest => p.isPrefixOf (c :: rest) || listInfixCheck p rest

/-- JavaScript `String.prototype.toLowerCase` on one character, restricted to
ASCII (every name and query in this system is ASCII). -/
def lowerChar (c : Char) : Char :=
  if 65 ≤ c.toNat ∧ c.toNat ≤ 90 then Char.ofNat (c.toNat + 32) else c

/-- Case-insensitive substring test on names (both sides lower-cased), i.e.
JavaScript `name.toLowerCase().includes(query.toLowerCase())`. -/
def containsCI (name query : String) : Bool :=
  listInfixCheck (query.toList.map lowerChar) (name.toList.map lowerChar)

/-- Modelled from the spec: `MemStorage.searchConcepts` is code of this
repository that is not under src/ — only its callers appear (`DbStorage`
delegates to `memStorage.searchConcepts`, db-storage.ts:147,158, and the route
layer calls `storage.searchConcepts`, routes.ts:30).  Spec §4.1: case-insensitive
substring match on name; empty query returns empty list, never all concepts. -/
def MemStorage.searchConcepts (s : MemState) (query : String) : List Concept :=
  if query == "" then []
  else s.concepts.filter (fun c => containsCI c.name query)

/-! ## Durable backend adapter (src/server/db-storage.ts)

Every method has the shape `try \x7b if (!db) return memStorage.op(...); durable
query \x7d catch \x7b return memStorage.op(...) \x7d`.  The `db` reference is fixed for
the process lifetime (`avail`); each durable query site carries its own
`DbCall` outcome. -/

/-- Outcome of one durable query: it returns normally or raises. -/
inductive DbCall where
  | ok
  | fail
deriving Repr, DecidableEq

/-- Rows of the durable (PostgreSQL) store. -/
structure DbState where
  concepts : List Concept
  conceptRelationships : List ConceptRelationship
  userProgress : List UserProgress
deriving Repr, DecidableEq

/-- `DbStorage.getConcepts` (db-storage.ts:117): `SELECT * FROM concepts`,
falling back to the memory backend when `db` is null or the query raises. -/
def DbStorage.getConcepts (avail : Bool) (o : DbCall) (dbs : DbState) (ms : MemState) :
    List Concept :=
  if !avail then MemStorage.getConcepts ms
  else match o with
    | .fail => MemStorage.getConcepts ms
    | .ok => dbs.concepts

/-- SQL `name LIKE '%' || query || '%'` for a query without `%` or `_`
metacharacters.  PostgreSQL `LIKE` is case-sensitive; drizzle-orm `like` emits
`LIKE` (its `ilike` variant, not used here, would emit the case-insensitive
`ILIKE`). -/
def likeContains (name query : String) : Bool :=
  listInfixCheck query.toList name.toList

/-- `DbStorage.searchConcepts` (db-storage.ts:143): the empty-query guard runs
before the durable query, so only the `LIKE` select itself can raise. -/
def DbStorage.searchConcepts (avail : Bool) (o : DbCall) (dbs : DbState) (ms : MemState)
    (query : String) : List Concept :=
  if !avail then MemStorage.searchConcepts ms query
  else if query == "" then []
  else match o with
    | .fail => MemStorage.searchConcepts ms query
    | .ok => dbs.concepts.filter (fun c => likeContains c.name query)

/-- `DbStorage.getConceptRelationships` (db-storage.ts:191): the durable query
filters by `eq(conceptRelationships.sourceId, conceptId)` only. -/
def DbStorage.getConceptRelationships (avail : Bool) (o : DbCall) (dbs : DbState)
    (ms : MemState) (conceptId : Nat) : List ConceptRelationship :=
  if !avail then MemStorage.getConceptRelationships ms conceptId
  else match o with
    | .fail => MemStorage.getConceptRelationships ms conceptId
    | .ok => dbs.conceptRelationships.filter (fun r => r.sourceId == conceptId)

/-- `DbStorage.getUserProgress` (db-storage.ts:221). -/
def DbStorage.getUserProgress (avail : Bool) (o : DbCall) (dbs : DbState) (ms : MemState)
    (userId : Nat) : List UserProgress :=
  if !avail then MemStorage.getUserProgress ms userId
  else match o with
    | .fail => MemStorage.getUserProgress ms userId
    | .ok => dbs.userProgress.filter (fun p => p.userId == userId)

/-- `DbStorage.createUserProgress` (db-storage.ts:253); `newId` is the serial id
the insert would be assigned by the database sequence. -/
def DbStorage.createUserProgress (avail : Bool) (o : DbCall) (dbs : DbState) (ms : MemState)
    (p : InsertUserProgress) (newId : Nat) : UserProgress × DbState × MemState :=
  if !avail then
    let (row, ms2) := MemStorage.createUserProgress ms p
    (row, dbs, ms2)
  else match o with
    | .fail =>
      let (row, ms2) := MemStorage.createUserProgress ms p
      (row, dbs, ms2)
    | .ok =>
      let row : UserProgress :=
        { id := newId, userId := p.userId, conceptId := p.conceptId,
          isLearned := p.isLearned, learnedAt := p.learnedAt }
      (row, { dbs with userProgress := dbs.userProgress ++ [row] }, ms)

/-- `DbStorage.updateUserProgress` (db-storage.ts:267): `UPDATE ... WHERE id =
(id) RETURNING *`; an empty returned row set makes the method throw inside its
own try block, so that throw — like a raised query — is absorbed by the catch
and re-issued against the memory backend, whose own `NotFound` is the only
error that escapes. -/
def DbStorage.updateUserProgress (avail : Bool) (o : DbCall) (dbs : DbState) (ms : MemState)
    (id : Nat) (u : ProgressUpdate) :
    Except StorageError UserProgress × DbState × MemState :=
  if !avail then
    let (r, ms2) := MemStorage.updateUserProgress ms id u
    (r, dbs, ms2)
  else match o with
    | .fail =>
      let (r, ms2) := MemStorage.updateUserProgress ms id u
      (r, dbs, ms2)
    | .ok =>
      match dbs.userProgress.filter (fun p => p.id == id) with
      | [] =>
        let (r, ms2) := MemStorage.updateUserProgress ms id u
        (r, dbs, ms2)
      | p :: _ =>
        (Except.ok (mergeProgress p u),
         { dbs with userProgress :=
             dbs.userProgress.map (fun q => if q.id == id then mergeProgress q u else q) },
         ms)

/-- `DbStorage.getKnowledgeGraph` (db-storage.ts:347): nodes come from
`this.getConcepts()` (which never raises), links from a second, independent
query with its own try/catch.  A null `db` returns the whole memory graph; a
raised link query keeps the already-fetched nodes and pairs them with the
memory backend links. -/
def DbStorage.getKnowledgeGraph (avail : Bool) (oNodes oLinks : DbCall) (dbs : DbState)
    (ms : MemState) : KnowledgeGraph :=
  let nodes := DbStorage.getConcepts avail oNodes dbs ms
  if !avail then MemStorage.getKnowledgeGraph ms
  else match oLinks with
    | .fail => { nodes := nodes, links := (MemStorage.getKnowledgeGraph ms).links }
    | .ok => { nodes := nodes, links := dbs.conceptRelationships.map mkLink }

/-! ## Recommendation engine (routes.ts:186, `GET /api/user/recommendations`) -/

/-- One entry of the recommendation response. -/
structure Recommendation where
  concept : Concept
  reason : String
deriving Repr, DecidableEq

/-- `progress.filter(p => p.isLearned).map(p => p.conceptId)` (routes.ts:196). -/
def learnedConceptIds (progress : List UserProgress) : List Nat :=
  (progress.filter (fun p => p.isLearned)).map (fun p => p.conceptId)

/-- Prerequisite sources of a concept (routes.ts:216): sources of
`prerequisite` links whose target is the concept. -/
def prereqSources (links : List GraphLink) (conceptId : Nat) : List Nat :=
  ((links.filter (fun l => l.target == conceptId && l.type == "prerequisite")).map
    (fun l => l.source))

/-- Learned neighbours over `related` links in either direction
(routes.ts:230). -/
def relatedLearnedIds (links : List GraphLink) (learned : List Nat) (conceptId : Nat) :
    List Nat :=
  (((links.filter (fun l =>
        (l.source == conceptId || l.target == conceptId) && l.type == "related")).map
      (fun l => if l.source == conceptId then l.target else l.source)).filter
    (fun i => learned.contains i))

/-- The reason attached to a kept concept (routes.ts:238): if the first learned
related neighbour resolves to a concept, name it; otherwise (none, or an
unresolvable id) fall through to `Ready to learn`. -/
def reasonFor (allConcepts : List Concept) (relatedLearned : List Nat) (c : Concept) :
    Recommendation :=
  match relatedLearned with
  | [] => { concept := c, reason := "Ready to learn" }
  | i :: _ =>
    match allConcepts.find? (fun cc => cc.id == i) with
    | some rc => { concept := c, reason := "Connected to your " ++ rc.name ++ " knowledge" }
    | none => { concept := c, reason := "Ready to learn" }

/-- One iteration of the recommendation loop (routes.ts:209): skip learned
concepts, keep a concept whose prerequisites are all learned (or absent), and
attach the reason computed from the first learned related neighbour. -/
def recommendFor (allConcepts : List Concept) (links : List GraphLink) (learned : List Nat)
    (c : Concept) : Option Recommendation :=
  if learned.contains c.id then none
  else if (prereqSources links c.id).all (fun p => learned.contains p)
      || (prereqSources links c.id).isEmpty then
    some (reasonFor allConcepts (relatedLearnedIds links learned c.id) c)
  else none

/-- The unsorted recommendation list, in concept-enumeration order. -/
def candidateRecs (allConcepts : List Concept) (links : List GraphLink)
    (learned : List Nat) : List Recommendation :=
  allConcepts.filterMap (recommendFor allConcepts links learned)

/-- Domains of the concepts the user has learned (routes.ts:265): learned
progress entries are resolved through `allConcepts.find`; the
`.filter(Boolean)` step drops both unresolved ids (`undefined`) and the falsy
empty-string domain. -/
def userDomains (allConcepts : List Concept) (progress : List UserProgress) : List String :=
  (((progress.filter (fun p => p.isLearned)).filterMap
      (fun p => (allConcepts.find? (fun c => c.id == p.conceptId)).map
        (fun c => c.domain))).filter
    (fun d => d != ""))

/-- The sort comparator (routes.ts:259): equal domains tie; otherwise a
recommendation in a domain the user has started learning sorts ahead of one in
a domain the user has not. -/
def recCompare (allConcepts : List Concept) (progress : List UserProgress)
    (a b : Recommendation) : Int :=
  if a.concept.domain == b.concept.domain then 0
  else if (userDomains allConcepts progress).contains a.concept.domain
      && !((userDomains allConcepts progress).contains b.concept.domain) then -1
  else if !((userDomains allConcepts progress).contains a.concept.domain)
      && (userDomains allConcepts progress).contains b.concept.domain then 1
  else 0

/-- The full recommendation response (routes.ts:186): build the candidate list,
sort it with `recCompare`, return the first 5.  `Array.prototype.sort` is a
stable sort (ECMAScript 2019), and `recCompare` is a consistent comparator
(`recCompare a b = sign (key a - key b)` for the two-valued key `domain started
or not`), so it is embedded as the stable insertion sort on
`fun a b => recCompare a b <= 0`. -/
def recommendations (allConcepts : List Concept) (links : List GraphLink)
    (progress : List UserProgress) : List Recommendation :=
  (List.insertionSort (fun a b => recCompare allConcepts progress a b ≤ 0)
    (candidateRecs allConcepts links (learnedConceptIds progress))).take 5

/-! ## Route-level progress upsert (routes.ts:148, `POST /api/user/progress`) -/

/-- The zod-validated request body: `conceptId` is required, `isLearned` and
`learnedAt` are optional keys. -/
structure RouteProgressBody where
  conceptId : Nat
  isLearned : Option Bool
  learnedAt : Option (Option Nat)
deriving Repr, DecidableEq

/-- `POST /api/user/progress` against the memory backend: look up the
`(userId, conceptId)` row; update it when it exists, create it otherwise.  The
validated payload always carries `userId` and `conceptId`; its optional keys
are spread into the update only when present, and an absent `isLearned` on
creation behaves as `false` (JavaScript truthiness of `undefined`). -/
def routePostProgress (s : MemState) (userId : Nat) (b : RouteProgressBody) :
    Except StorageError UserProgress × MemState :=
  match MemStorage.getUserProgressForConcept s userId b.conceptId with
  | some existing =>
    MemStorage.updateUserProgress s existing.id
      { userId := some userId, conceptId := some b.conceptId,
        isLearned := b.isLearned, learnedAt := b.learnedAt }
  | none =>
    let (row, s2) := MemStorage.createUserProgress s
      { userId := userId, conceptId := b.conceptId,
        isLearned := b.isLearned.getD false, learnedAt := b.learnedAt.getD none }
    (Except.ok row, s2)

/-! ## Concrete states used by witnesses and counterexamples -/

/-- The `MemStorage` constructor state before `seedData()` runs: empty maps,
every id counter at 1. -/
def emptyMem : MemState :=
  { concepts := [], conceptRelationships := [], userProgress := [],
    conceptId := 1, relationshipId := 1, progressId := 1 }

/-- An empty durable store. -/
def emptyDb : DbState :=
  { concepts := [], conceptRelationships := [], userProgress := [] }

/-! ## Helper lemmas about the `Map.set` embedding -/

lemma mapSet_of_forall_ne (getId : α → Nat) (key : Nat) (v : α) (l : List α)
    (h : ∀ x ∈ l, getId x ≠ key) : mapSet getId key v l = l ++ [v] := by
  have hb : ¬ (l.any (fun x => getId x == key) = true) := by
    intro hc
    rcases List.any_eq_true.mp hc with ⟨x, hx, hbe⟩
    exact h x hx (by simpa using hbe)
  unfold mapSet
  rw [if_neg hb]

lemma find?_map_replace (getId : α → Nat) (key : Nat) (v : α) (hv : getId v = key) :
    ∀ l : List α,
      (l.map (fun x => if getId x == key then v else x)).find? (fun x => getId x == key)
        = if l.any (fun x => getId x == key) then some v else none
  | [] => by simp
  | x :: xs => by
    by_cases hx : getId x = key
    · have hxv : (if (getId x == key) = true then v else x) = v := by simp [hx]
      rw [List.map_cons, hxv, List.find?_cons_of_pos _ (by simpa using hv),
        if_pos (List.any_eq_true.mpr ⟨x, List.mem_cons_self x xs, by simpa using hx⟩)]
    · have hxv : (if (getId x == key) = true then v else x) = x := by simp [hx]
      rw [List.map_cons, hxv, List.find?_cons_of_neg _ (by simpa using hx),
        find?_map_replace getId key v hv xs, List.any_cons]
      have hcond : (getId x == key) = false := by simpa using hx
      rw [hcond, Bool.false_or]

lemma find?_mapSet_self (getId : α → Nat) (key : Nat) (v : α) (l : List α)
    (hv : getId v = key) :
    (mapSet getId key v l).find? (fun x => getId x == key) = some v := by
  unfold mapSet
  by_cases h : l.any (fun x => getId x == key) = true
  · rw [if_pos h, find?_map_replace getId key v hv l, if_pos h]
  · rw [if_neg h, List.find?_append]
    have hnone : l.find? (fun x => getId x == key) = none := by
      rw [List.find?_eq_none]
      intro x hx hbe
      exact h (List.any_eq_true.mpr ⟨x, hx, hbe⟩)
    simp [hnone, List.find?, hv]

/-! ## C9 — create/get round trip on the memory backend -/

/-- C9: for every state, insert payload and instant, `createConcept` returns a
record that is exactly the payload extended with the assigned id and the
`createdAt` stamp, and `getConcept` on the returned id reads back exactly that
record. -/
theorem createConcept_getConcept_roundTrip (s : MemState) (c : InsertConcept) (now : Nat) :
    MemStorage.getConcept (MemStorage.createConcept s c now).2
        (MemStorage.createConcept s c now).1.id
      = some (MemStorage.createConcept s c now).1
    ∧ (MemStorage.createConcept s c now).1
        = { id := s.conceptId, name := c.name, domain := c.domain,
            difficulty := c.difficulty, description := c.description, createdAt := now } := by
  refine ⟨?_, rfl⟩
  show (mapSet Concept.id s.conceptId _ s.concepts).find? _ = _
  exact find?_mapSet_self Concept.id s.conceptId _ s.concepts rfl

/-! ## C10 — failing update leaves the store untouched -/

lemma memUpdate_absent (s : MemState) (id : Nat) (u : ProgressUpdate)
    (h : ∀ p ∈ s.userProgress, p.id ≠ id) :
    MemStorage.updateUserProgress s id u = (Except.error (StorageError.notFound id), s) := by
  unfold MemStorage.updateUserProgress
  have hf : s.userProgress.find? (fun p => p.id == id) = none :=
    List.find?_eq_none.mpr (fun x hx => by simpa using h x hx)
  rw [hf]

/-- C10: when the id is absent from the memory backend's progress map,
`updateUserProgress` fails with `NotFound` and the entire store state is the
input state — the throw happens before any mutation. -/
theorem updateUserProgress_notFound_atomic (s : MemState) (id : Nat) (u : ProgressUpdate)
    (h : ∀ p ∈ s.userProgress, p.id ≠ id) :
    MemStorage.updateUserProgress s id u = (Except.error (StorageError.notFound id), s) :=
  memUpdate_absent s id u h

theorem updateUserProgress_notFound_atomic_witness :
    (∀ p ∈ emptyMem.userProgress, p.id ≠ 1)
    ∧ MemStorage.updateUserProgress emptyMem 1 ⟨none, none, none, none⟩
        = (Except.error (StorageError.notFound 1), emptyMem) :=
  ⟨by simp [emptyMem],
   updateUserProgress_notFound_atomic emptyMem 1 ⟨none, none, none, none⟩
     (by simp [emptyMem])⟩

/-! ## C6 — mixed-provenance knowledge graph on link failure -/

/-- C6: on the durable adapter, when the node query succeeds against the durable
store and the subsequent link query raises, `getKnowledgeGraph` returns the
durable nodes paired with the memory backend's links (and does not raise). -/
theorem getKnowledgeGraph_linkFailure_mixed (dbs : DbState) (ms : MemState) :
    DbStorage.getKnowledgeGraph true DbCall.ok DbCall.fail dbs ms
      = { nodes := dbs.concepts, links := (MemStorage.getKnowledgeGraph ms).links } := rfl

/-! ## C1 — durable relationship retrieval filters by source only -/

/-- A prerequisite edge from concept 1 to concept 2. -/
def relC1 : ConceptRelationship :=
  { id := 1, sourceId := 1, targetId := 2, relationshipType := "prerequisite",
    strength := 5, createdAt := 0 }

def dbC1 : DbState :=
  { concepts := [], conceptRelationships := [relC1], userProgress := [] }

def memC1 : MemState :=
  { concepts := [], conceptRelationships := [relC1], userProgress := [],
    conceptId := 3, relationshipId := 2, progressId := 1 }

/-- C1: at the failing input (query the target concept 2 of the stored edge
1 → 2), the durable path of `getConceptRelationships` returns nothing — its
query filters by `sourceId` only — while the memory backend returns the edge,
as the contract (source **or** target) requires. -/
theorem getConceptRelationships_durable_omits_target :
    DbStorage.getConceptRelationships true DbCall.ok dbC1 memC1 2 = []
    ∧ MemStorage.getConceptRelationships memC1 2 = [relC1] := ⟨rfl, rfl⟩

/-! ## C5 — durable search is case-sensitive -/

/-- Seed concept `Kinematics` (storage.ts:260). -/
def kinematicsConcept : Concept :=
  { id := 4, name := "Kinematics", domain := "Physics", difficulty := "beginner",
    description := "The study of motion without considering its causes", createdAt := 0 }

def dbC5 : DbState :=
  { concepts := [kinematicsConcept], conceptRelationships := [], userProgress := [] }

def memC5 : MemState := { emptyMem with concepts := [kinematicsConcept] }

/-- C5: at the failing input (query `kine` against a store holding
`Kinematics`), the durable path returns the empty list — PostgreSQL `LIKE` is
case-sensitive — although the name does contain the query case-insensitively
and the memory backend (spec-modelled) returns the concept. -/
theorem searchConcepts_durable_caseSensitive :
    DbStorage.searchConcepts true DbCall.ok dbC5 emptyMem "kine" = []
    ∧ containsCI kinematicsConcept.name "kine" = true
    ∧ MemStorage.searchConcepts memC5 "kine" = [kinematicsConcept] := by
  exact ⟨rfl, by decide, rfl⟩

/-! ## C4 — storage-level creation duplicates a (userId, conceptId) pair -/

/-- C4 counterexample: from the empty store, two `createUserProgress` calls for
the pair `(1, 1)` leave two rows for that pair, violating the at-most-one
invariant as stated. -/
theorem createUserProgress_duplicate_pair :
    ¬ ((((MemStorage.createUserProgress
            (MemStorage.createUserProgress emptyMem
              { userId := 1, conceptId := 1, isLearned := false, learnedAt := none }).2
            { userId := 1, conceptId := 1, isLearned := false, learnedAt := none }).2).userProgress.filter
          (fun p => p.userId == 1 && p.conceptId == 1)).length ≤ 1) := by decide

/-! ## C8 — knowledge-graph referential integrity -/

/-- A store reached from the constructor state by one `createConcept` and one
`createConceptRelationship` whose target id 99 references no stored concept —
the store performs no referential check. -/
def orphanState : MemState :=
  (MemStorage.createConceptRelationship
    (MemStorage.createConcept emptyMem
      { name := "A", domain := "D", difficulty := "beginner", description := "a" } 0).2
    { sourceId := 1, targetId := 99, relationshipType := "prerequisite", strength := 5 }
    0).2

def orphanGraph : KnowledgeGraph := MemStorage.getKnowledgeGraph orphanState

/-- C8 counterexample: on a reachable single-backend state, a returned link's
target appears in no returned node — the endpoint-closure half of the claim is
false without a referential-integrity assumption on the state. -/
theorem getKnowledgeGraph_orphan_link :
    ¬ (∀ l ∈ orphanGraph.links,
        (∃ c ∈ orphanGraph.nodes, c.id = l.source)
        ∧ ∃ c ∈ orphanGraph.nodes, c.id = l.target) := by decide

/-- C8 (amended): on the memory backend the link count equals the stored
relationship count for **every** state; endpoint closure holds for every state
whose stored relationships reference stored concepts (the data-model
invariant). -/
theorem getKnowledgeGraph_integrity (s : MemState) :
    (MemStorage.getKnowledgeGraph s).links.length = s.conceptRelationships.length
    ∧ ((∀ r ∈ s.conceptRelationships,
          (∃ c ∈ s.concepts, c.id = r.sourceId) ∧ ∃ c ∈ s.concepts, c.id = r.targetId) →
        ∀ l ∈ (MemStorage.getKnowledgeGraph s).links,
          (∃ c ∈ (MemStorage.getKnowledgeGraph s).nodes, c.id = l.source)
          ∧ ∃ c ∈ (MemStorage.getKnowledgeGraph s).nodes, c.id = l.target) := by
  constructor
  · simp [MemStorage.getKnowledgeGraph]
  · intro h l hl
    rcases List.mem_map.mp hl with ⟨r, hr, rfl⟩
    exact h r hr

/-- A valid one-concept, one-self-loop store for the C8 witness. -/
def wfState : MemState :=
  { concepts := [{ id := 1, name := "A", domain := "D", difficulty := "beginner",
                   description := "a", createdAt := 0 }],
    conceptRelationships := [{ id := 1, sourceId := 1, targetId := 1,
                               relationshipType := "related", strength := 3, createdAt := 0 }],
    userProgress := [], conceptId := 2, relationshipId := 2, progressId := 1 }

theorem getKnowledgeGraph_integrity_witness :
    (∀ r ∈ wfState.conceptRelationships,
      (∃ c ∈ wfState.concepts, c.id = r.sourceId) ∧ ∃ c ∈ wfState.concepts, c.id = r.targetId)
    ∧ ((MemStorage.getKnowledgeGraph wfState).links.length
          = wfState.conceptRelationships.length
        ∧ ∀ l ∈ (MemStorage.getKnowledgeGraph wfState).links,
            (∃ c ∈ (MemStorage.getKnowledgeGraph wfState).nodes, c.id = l.source)
            ∧ ∃ c ∈ (MemStorage.getKnowledgeGraph wfState).nodes, c.id = l.target) :=
  ⟨by decide,
   (getKnowledgeGraph_integrity wfState).1,
   (getKnowledgeGraph_integrity wfState).2 (by decide)⟩

/-! ## C3 — the façade's error contract -/

/-- C3: `updateUserProgress` on an id absent from the store fails with
`NotFound` and creates nothing (both backends, every fault outcome), and every
other operation absorbs durable faults: a failed durable call is re-issued
against the memory backend and its value is returned — no error escapes. -/
theorem facade_error_contract :
    (∀ (s : MemState) (id : Nat) (u : ProgressUpdate),
        (∀ p ∈ s.userProgress, p.id ≠ id) →
        MemStorage.updateUserProgress s id u
          = (Except.error (StorageError.notFound id), s))
    ∧ (∀ (avail : Bool) (o : DbCall) (dbs : DbState) (ms : MemState) (id : Nat)
          (u : ProgressUpdate),
        (∀ p ∈ dbs.userProgress, p.id ≠ id) → (∀ p ∈ ms.userProgress, p.id ≠ id) →
        DbStorage.updateUserProgress avail o dbs ms id u
          = (Except.error (StorageError.notFound id), dbs, ms))
    ∧ (∀ (dbs : DbState) (ms : MemState),
        DbStorage.getConcepts true DbCall.fail dbs ms = MemStorage.getConcepts ms)
    ∧ (∀ (dbs : DbState) (ms : MemState) (q : String), q ≠ "" →
        DbStorage.searchConcepts true DbCall.fail dbs ms q
          = MemStorage.searchConcepts ms q)
    ∧ (∀ (dbs : DbState) (ms : MemState) (cid : Nat),
        DbStorage.getConceptRelationships true DbCall.fail dbs ms cid
          = MemStorage.getConceptRelationships ms cid)
    ∧ (∀ (dbs : DbState) (ms : MemState) (uid : Nat),
        DbStorage.getUserProgress true DbCall.fail dbs ms uid
          = MemStorage.getUserProgress ms uid)
    ∧ (∀ (dbs : DbState) (ms : MemState) (p : InsertUserProgress) (nid : Nat),
        (DbStorage.createUserProgress true DbCall.fail dbs ms p nid).1
          = (MemStorage.createUserProgress ms p).1)
    ∧ (∀ (dbs : DbState) (ms : MemState),
        DbStorage.getKnowledgeGraph true DbCall.fail DbCall.fail dbs ms
          = MemStorage.getKnowledgeGraph ms) := by
  refine ⟨memUpdate_absent, ?_, fun _ _ => rfl, ?_, fun _ _ _ => rfl, fun _ _ _ => rfl,
    fun _ _ _ _ => rfl, fun _ _ => rfl⟩
  · intro avail o dbs ms id u hdb hm
    have hmem := memUpdate_absent ms id u hm
    have hfilter : dbs.userProgress.filter (fun p => p.id == id) = [] :=
      List.filter_eq_nil_iff.mpr (fun p hp => by simpa using hdb p hp)
    cases avail <;> cases o <;>
      simp [DbStorage.updateUserProgress, hmem, hfilter]
  · intro dbs ms q hq
    have hq2 : (q == "") = false := by simpa using hq
    simp [DbStorage.searchConcepts, hq2]

theorem facade_error_contract_witness :
    (∀ p ∈ emptyMem.userProgress, p.id ≠ 7)
    ∧ (∀ p ∈ emptyDb.userProgress, p.id ≠ 7)
    ∧ MemStorage.updateUserProgress emptyMem 7 ⟨none, none, none, none⟩
        = (Except.error (StorageError.notFound 7), emptyMem)
    ∧ DbStorage.updateUserProgress true DbCall.ok emptyDb emptyMem 7 ⟨none, none, none, none⟩
        = (Except.error (StorageError.notFound 7), emptyDb, emptyMem)
    ∧ DbStorage.getConcepts true DbCall.fail emptyDb emptyMem
        = MemStorage.getConcepts emptyMem :=
  ⟨by simp [emptyMem], by simp [emptyDb],
   facade_error_contract.1 emptyMem 7 ⟨none, none, none, none⟩ (by simp [emptyMem]),
   facade_error_contract.2.1 true DbCall.ok emptyDb emptyMem 7 ⟨none, none, none, none⟩
     (by simp [emptyDb]) (by simp [emptyMem]),
   facade_error_contract.2.2.1 emptyDb emptyMem⟩

/-! ## C2 — prerequisite gating of recommendations -/

lemma reasonFor_concept (allC : List Concept) (rl : List Nat) (c : Concept) :
    (reasonFor allC rl c).concept = c := by
  cases rl with
  | nil => rfl
  | cons i rest =>
    simp only [reasonFor]
    cases allC.find? (fun cc => cc.id == i) <;> rfl

lemma recommendFor_concept {allC : List Concept} {links : List GraphLink} {L : List Nat}
    {c : Concept} {rec : Recommendation} (h : recommendFor allC links L c = some rec) :
    rec.concept = c := by
  unfold recommendFor at h
  split at h
  · exact absurd h (by simp)
  · split at h
    · cases h
      exact reasonFor_concept allC _ c
    · exact absurd h (by simp)

lemma recommendFor_isSome_iff (allC : List Concept) (links : List GraphLink) (L : List Nat)
    (c : Concept) :
    (recommendFor allC links L c).isSome = true ↔
      (c.id ∉ L
        ∧ (prereqSources links c.id = []
            ∨ ∀ p ∈ prereqSources links c.id, p ∈ L)) := by
  unfold recommendFor
  by_cases h1 : c.id ∈ L
  · simp [h1]
  · have h1c : (L.contains c.id) = false := by simpa using h1
    rw [if_neg (by simpa using h1)]
    by_cases h2 : ((prereqSources links c.id).all (fun p => L.contains p)
        || (prereqSources links c.id).isEmpty) = true
    · rw [if_pos h2]
      have hiff : prereqSources links c.id = [] ∨ ∀ p ∈ prereqSources links c.id, p ∈ L := by
        rcases Bool.or_eq_true_iff.mp h2 with hall | hemp
        · exact Or.inr (fun p hp => by simpa using List.all_eq_true.mp hall p hp)
        · exact Or.inl (by simpa using hemp)
      simp [h1, hiff]
    · rw [if_neg (by simpa using h2)]
      simp only [Option.isSome_none, Bool.false_eq_true, false_iff, not_and]
      intro _ hc
      apply h2
      rcases hc with hnil | hall
      · exact Bool.or_eq_true_iff.mpr (Or.inr (by simp [hnil]))
      · exact Bool.or_eq_true_iff.mpr
          (Or.inl (List.all_eq_true.mpr (fun p hp => by simpa using hall p hp)))

lemma mem_candidateRecs {allC : List Concept} {links : List GraphLink} {L : List Nat}
    {r : Recommendation} (hr : r ∈ candidateRecs allC links L) :
    r.concept ∈ allC ∧ recommendFor allC links L r.concept = some r := by
  rcases List.mem_filterMap.mp hr with ⟨c, hc, hsome⟩
  have hcc := recommendFor_concept hsome
  rw [hcc]
  exact ⟨hc, hsome⟩

/-- C2: a concept with an unlearned prerequisite never appears in the
recommendation output, and a not-yet-learned concept is a candidate iff its
prerequisite set is empty or contained in the learned set. -/
theorem recommendation_prerequisite_law (allConcepts : List Concept) (links : List GraphLink)
    (progress : List UserProgress) (c : Concept) :
    ((∃ p ∈ prereqSources links c.id, p ∉ learnedConceptIds progress) →
      ∀ r ∈ recommendations allConcepts links progress, r.concept ≠ c)
    ∧ (c ∈ allConcepts → c.id ∉ learnedConceptIds progress →
        ((∃ r ∈ candidateRecs allConcepts links (learnedConceptIds progress), r.concept = c) ↔
          (prereqSources links c.id = []
            ∨ ∀ p ∈ prereqSources links c.id, p ∈ learnedConceptIds progress))) := by
  constructor
  · rintro ⟨p, hp, hpn⟩ r hr hrc
    have hr1 : r ∈ List.insertionSort _ (candidateRecs allConcepts links
        (learnedConceptIds progress)) := List.take_subset 5 _ hr
    have hr2 : r ∈ candidateRecs allConcepts links (learnedConceptIds progress) :=
      (List.mem_insertionSort _).mp hr1
    rcases mem_candidateRecs hr2 with ⟨-, hsome⟩
    rw [hrc] at hsome
    have hs : (recommendFor allConcepts links (learnedConceptIds progress) c).isSome = true :=
      by rw [hsome]; rfl
    rcases ((recommendFor_isSome_iff _ _ _ _).mp hs).2 with hnil | hall
    · rw [hnil] at hp
      exact absurd hp (List.not_mem_nil p)
    · exact hpn (hall p hp)
  · intro hcmem hcnl
    constructor
    · rintro ⟨r, hr, hrc⟩
      rcases mem_candidateRecs hr with ⟨-, hsome⟩
      rw [hrc] at hsome
      have hs : (recommendFor allConcepts links (learnedConceptIds progress) c).isSome = true :=
        by rw [hsome]; rfl
      exact ((recommendFor_isSome_iff _ _ _ _).mp hs).2
    · intro hpre
      have hs : (recommendFor allConcepts links (learnedConceptIds progress) c).isSome = true :=
        (recommendFor_isSome_iff _ _ _ _).mpr ⟨hcnl, hpre⟩
      rcases Option.isSome_iff_exists.mp hs with ⟨rec, hrec⟩
      exact ⟨rec, List.mem_filterMap.mpr ⟨c, hcmem, hrec⟩, recommendFor_concept hrec⟩

/-- Two concepts for the C2 witness scenario: A is a prerequisite of B and
nothing is learned, so B must not be recommended. -/
def conceptA : Concept :=
  { id := 1, name := "A", domain := "D", difficulty := "beginner",
    description := "a", createdAt := 0 }

def conceptB : Concept :=
  { id := 2, name := "B", domain := "D", difficulty := "beginner",
    description := "b", createdAt := 0 }

def linkAB : GraphLink := { source := 1, target := 2, type := "prerequisite", strength := 8 }

theorem recommendation_prerequisite_law_witness :
    (∃ p ∈ prereqSources [linkAB] conceptB.id, p ∉ learnedConceptIds [])
    ∧ ∀ r ∈ recommendations [conceptA, conceptB] [linkAB] [], r.concept ≠ conceptB :=
  ⟨by decide,
   (recommendation_prerequisite_law [conceptA, conceptB] [linkAB] [] conceptB).1 (by decide)⟩

/-! ## C7 — ordering is a stable two-block partition truncated to 5

`Array.prototype.sort` is stable and `recCompare` is a consistent two-valued
key comparator, so sorting is a stable partition; the lemmas below prove that
for the stable insertion sort. -/

lemma orderedInsert_all (r : α → α → Prop) [DecidableRel r] (x : α) :
    ∀ l : List α, (∀ b ∈ l, r x b) → List.orderedInsert r x l = x :: l
  | [], _ => rfl
  | b :: l, h => by
    rw [List.orderedInsert, if_pos (h b (List.mem_cons_self b l))]

lemma orderedInsert_append (r : α → α → Prop) [DecidableRel r] (x : α) :
    ∀ (l m : List α), (∀ b ∈ l, ¬ r x b) →
      List.orderedInsert r x (l ++ m) = l ++ List.orderedInsert r x m
  | [], m, _ => by simp
  | b :: l, m, h => by
    rw [List.cons_append, List.orderedInsert, if_neg (h b (List.mem_cons_self b l)),
      orderedInsert_append r x l m (fun y hy => h y (List.mem_cons_of_mem b hy)),
      List.cons_append]

lemma insertionSort_two_key (p : α → Bool) (r : α → α → Prop) [DecidableRel r]
    (hr : ∀ a b, r a b ↔ (p a = true ∨ p b = false)) :
    ∀ l : List α, List.insertionSort r l = l.filter p ++ l.filter (fun a => !(p a))
  | [] => rfl
  | x :: l => by
    rw [List.insertionSort, insertionSort_two_key p r hr l]
    by_cases hx : p x = true
    · rw [orderedInsert_all r x _ (fun b _ => (hr x b).mpr (Or.inl hx))]
      simp [List.filter_cons, hx]
    · have hxf : p x = false := by simpa using hx
      have hA : ∀ b ∈ l.filter p, ¬ r x b := by
        intro b hb hrb
        have hpb : p b = true := (List.mem_filter.mp hb).2
        rcases (hr x b).mp hrb with h | h
        · rw [hxf] at h; cases h
        · rw [hpb] at h; cases h
      have hB : ∀ b ∈ l.filter (fun a => !(p a)), r x b := by
        intro b hb
        have hpb : (!(p b)) = true := (List.mem_filter.mp hb).2
        exact (hr x b).mpr (Or.inr (by simpa using hpb))
      rw [orderedInsert_append r x _ _ hA, orderedInsert_all r x _ hB]
      simp [List.filter_cons, hxf]

lemma recCompare_le_zero_iff (allC : List Concept) (prog : List UserProgress)
    (a b : Recommendation) :
    (recCompare allC prog a b ≤ 0) ↔
      ((userDomains allC prog).contains a.concept.domain = true
        ∨ (userDomains allC prog).contains b.concept.domain = false) := by
  unfold recCompare
  by_cases hd : a.concept.domain = b.concept.domain
  · rw [if_pos (by simpa using hd)]
    constructor
    · intro _
      rw [hd]
      cases h : (userDomains allC prog).contains b.concept.domain
      · exact Or.inr rfl
      · exact Or.inl rfl
    · intro _
      norm_num
  · rw [if_neg (by simpa using hd)]
    cases ha : (userDomains allC prog).contains a.concept.domain <;>
      cases hb : (userDomains allC prog).contains b.concept.domain <;>
      decide

/-- Stated from the spec for comparison (§4.5 step 4: a candidate counts as
`started` when its domain "already has at least one learned concept"): some
learned progress entry resolves to a stored concept with exactly this
domain. -/
def specDomainHasLearned (allC : List Concept) (prog : List UserProgress) (d : String) :
    Bool :=
  prog.any (fun pr =>
    pr.isLearned && allC.any (fun c => c.id == pr.conceptId && c.domain == d))

lemma userDomains_contains_iff (allC : List Concept) (prog : List UserProgress) (d : String)
    (hids : (allC.map Concept.id).Nodup) (hd : d ≠ "") :
    (userDomains allC prog).contains d = specDomainHasLearned allC prog d := by
  apply Bool.eq_iff_iff.mpr
  constructor
  · intro hc
    have hmem : d ∈ userDomains allC prog := by simpa using hc
    unfold userDomains at hmem
    rcases List.mem_filter.mp hmem with ⟨hmem2, -⟩
    rcases List.mem_filterMap.mp hmem2 with ⟨pr, hpr, hf⟩
    rcases List.mem_filter.mp hpr with ⟨hprog, hlearn⟩
    rcases Option.map_eq_some'.mp hf with ⟨cc, hfind, hdom⟩
    have hccmem := List.mem_of_find?_eq_some hfind
    have hccid0 := List.find?_some hfind
    have hccid : (cc.id == pr.conceptId) = true := by simpa using hccid0
    show specDomainHasLearned allC prog d = true
    unfold specDomainHasLearned
    refine List.any_eq_true.mpr ⟨pr, hprog, ?_⟩
    refine Bool.and_eq_true_iff.mpr ⟨hlearn, List.any_eq_true.mpr ⟨cc, hccmem, ?_⟩⟩
    exact Bool.and_eq_true_iff.mpr ⟨hccid, by simpa using hdom⟩
  · intro hs
    have hs2 : specDomainHasLearned allC prog d = true := hs
    unfold specDomainHasLearned at hs2
    rcases List.any_eq_true.mp hs2 with ⟨pr, hprog, hb⟩
    rcases Bool.and_eq_true_iff.mp hb with ⟨hlearn, hany⟩
    rcases List.any_eq_true.mp hany with ⟨cc, hccmem, hb2⟩
    rcases Bool.and_eq_true_iff.mp hb2 with ⟨hccid, hccdom⟩
    have hccid2 : cc.id = pr.conceptId := by simpa using hccid
    have hccdom2 : cc.domain = d := by simpa using hccdom
    have hfs : (allC.find? (fun c => c.id == pr.conceptId)).isSome :=
      List.find?_isSome.mpr ⟨cc, hccmem, by simpa using hccid2⟩
    rcases Option.isSome_iff_exists.mp hfs with ⟨c2, hfind⟩
    have hc2mem := List.mem_of_find?_eq_some hfind
    have hc2beq := List.find?_some hfind
    have hc2id : c2.id = pr.conceptId := by simpa using hc2beq
    have hc2eq : c2 = cc :=
      List.inj_on_of_nodup_map hids hc2mem hccmem (by rw [hc2id, hccid2])
    have hmem : d ∈ userDomains allC prog := by
      unfold userDomains
      refine List.mem_filter.mpr ⟨?_, by simpa using hd⟩
      refine List.mem_filterMap.mpr ⟨pr, List.mem_filter.mpr ⟨hprog, hlearn⟩, ?_⟩
      rw [hfind]
      simp [hc2eq, hccdom2]
    simpa using hmem

/-- C7 (amended): with distinct concept ids and non-empty domains, the
recommendation response is the candidate sequence stably partitioned — those
whose domain has a learned concept first, enumeration order preserved inside
each block — then truncated to the first 5. -/
theorem recommendations_stable_partition (allConcepts : List Concept)
    (links : List GraphLink) (progress : List UserProgress)
    (hids : (allConcepts.map Concept.id).Nodup)
    (hdom : ∀ c ∈ allConcepts, c.domain ≠ "") :
    recommendations allConcepts links progress =
      (((candidateRecs allConcepts links (learnedConceptIds progress)).filter
          (fun r => specDomainHasLearned allConcepts progress r.concept.domain))
        ++ ((candidateRecs allConcepts links (learnedConceptIds progress)).filter
          (fun r => !(specDomainHasLearned allConcepts progress r.concept.domain)))).take
        5 := by
  unfold recommendations
  congr 1
  rw [insertionSort_two_key
    (fun rec => (userDomains allConcepts progress).contains rec.concept.domain)
    (fun a b => recCompare allConcepts progress a b ≤ 0)
    (fun a b => recCompare_le_zero_iff allConcepts progress a b)
    (candidateRecs allConcepts links (learnedConceptIds progress))]
  have hcong : ∀ r ∈ candidateRecs allConcepts links (learnedConceptIds progress),
      (userDomains allConcepts progress).contains r.concept.domain
        = specDomainHasLearned allConcepts progress r.concept.domain := by
    intro r hr
    exact userDomains_contains_iff allConcepts progress r.concept.domain hids
      (hdom r.concept (mem_candidateRecs hr).1)
  have hcong2 : ∀ r ∈ candidateRecs allConcepts links (learnedConceptIds progress),
      (fun a => !((userDomains allConcepts progress).contains a.concept.domain)) r
        = (fun r => !(specDomainHasLearned allConcepts progress r.concept.domain)) r :=
    fun r hr => by simp only [hcong r hr]
  rw [List.filter_congr hcong, List.filter_congr hcong2]

/-- Concepts for the C7 counterexample: two of them carry the empty-string
domain, which the comparator's `.filter(Boolean)` step silently drops. -/
def cEmptyA : Concept :=
  { id := 1, name := "A", domain := "", difficulty := "beginner",
    description := "a", createdAt := 0 }

def cDomB : Concept :=
  { id := 2, name := "B", domain := "X", difficulty := "beginner",
    description := "b", createdAt := 0 }

def cEmptyC : Concept :=
  { id := 3, name := "C", domain := "", difficulty := "beginner",
    description := "c", createdAt := 0 }

def progEmptyDomain : List UserProgress :=
  [{ id := 1, userId := 1, conceptId := 1, isLearned := true, learnedAt := none }]

/-- C7 counterexample: with a learned concept whose domain is the empty string,
the code leaves the empty domain out of `userDomains`, so the candidate sharing
that domain is *not* moved ahead — the output differs from the claimed
partition by learned domains. -/
theorem recommendations_partition_empty_domain :
    recommendations [cEmptyA, cDomB, cEmptyC] [] progEmptyDomain ≠
      (((candidateRecs [cEmptyA, cDomB, cEmptyC] []
            (learnedConceptIds progEmptyDomain)).filter
          (fun r => specDomainHasLearned [cEmptyA, cDomB, cEmptyC] progEmptyDomain
            r.concept.domain))
        ++ ((candidateRecs [cEmptyA, cDomB, cEmptyC] []
            (learnedConceptIds progEmptyDomain)).filter
          (fun r => !(specDomainHasLearned [cEmptyA, cDomB, cEmptyC] progEmptyDomain
            r.concept.domain)))).take 5 := by decide

theorem recommendations_stable_partition_witness :
    ([cDomB].map Concept.id).Nodup ∧ (∀ c ∈ [cDomB], c.domain ≠ "")
      ∧ recommendations [cDomB] [] progEmptyDomain =
        (((candidateRecs [cDomB] [] (learnedConceptIds progEmptyDomain)).filter
            (fun r => specDomainHasLearned [cDomB] progEmptyDomain r.concept.domain))
          ++ ((candidateRecs [cDomB] [] (learnedConceptIds progEmptyDomain)).filter
            (fun r => !(specDomainHasLearned [cDomB] progEmptyDomain
              r.concept.domain)))).take 5 :=
  ⟨by decide, by decide,
   recommendations_stable_partition [cDomB] [] progEmptyDomain (by decide) (by decide)⟩

/-! ## C4 (amended) — the route-level upsert preserves pair uniqueness -/

/-- Number of stored progress rows for one `(userId, conceptId)` pair. -/
def pairCount (s : MemState) (u c : Nat) : Nat :=
  (s.userProgress.filter (fun p => p.userId == u && p.conceptId == c)).length

/-- Well-formedness of the progress map: distinct row ids, ids below the
counter (both hold by construction for the JavaScript `Map` keyed by the
counter), and at most one row per `(userId, conceptId)` pair. -/
def ProgressWF (s : MemState) : Prop :=
  (s.userProgress.map UserProgress.id).Nodup
  ∧ (∀ p ∈ s.userProgress, p.id < s.progressId)
  ∧ ∀ u c, pairCount s u c ≤ 1

lemma mapSet_of_any (getId : α → Nat) (key : Nat) (v : α) (l : List α)
    (h : l.any (fun x => getId x == key) = true) :
    mapSet getId key v l = l.map (fun x => if getId x == key then v else x) := by
  unfold mapSet
  rw [if_pos h]

lemma length_filter_map_congr (g : α → α) (q : α → Bool) :
    ∀ l : List α, (∀ x ∈ l, q (g x) = q x) →
      ((l.map g).filter q).length = (l.filter q).length
  | [], _ => rfl
  | x :: l, h => by
    have hx := h x (List.mem_cons_self x l)
    have hrec := length_filter_map_congr g q l (fun y hy => h y (List.mem_cons_of_mem x hy))
    rw [List.map_cons, List.filter_cons, List.filter_cons, hx]
    cases hq : q x
    · simpa using hrec
    · simpa using hrec

/-- C4 (amended): sequential requests through the route-level upsert
(`POST /api/user/progress`: update the existing `(userId, conceptId)` row, else
create) keep at most one progress row per pair; bare storage-level creation
does not. -/
theorem routePostProgress_pair_unique (s : MemState) (userId : Nat) (b : RouteProgressBody)
    (h : ProgressWF s) : ProgressWF (routePostProgress s userId b).2 := by
  obtain ⟨hnd, hlt, hpair⟩ := h
  unfold routePostProgress
  cases hfind : MemStorage.getUserProgressForConcept s userId b.conceptId with
  | none =>
    unfold MemStorage.getUserProgressForConcept at hfind
    show ProgressWF { s with
      userProgress := mapSet UserProgress.id s.progressId
        { id := s.progressId, userId := userId, conceptId := b.conceptId,
          isLearned := b.isLearned.getD false, learnedAt := b.learnedAt.getD none }
        s.userProgress,
      progressId := s.progressId + 1 }
    rw [ProgressWF, mapSet_of_forall_ne UserProgress.id s.progressId _ s.userProgress
      (fun x hx => Nat.ne_of_lt (hlt x hx))]
    refine ⟨?_, ?_, ?_⟩
    · rw [List.map_append]
      refine List.Nodup.append hnd (by simp) ?_
      intro a ha hb
      rcases List.mem_map.mp ha with ⟨p, hp, rfl⟩
      have : p.id = s.progressId := by simpa using hb
      exact absurd this (Nat.ne_of_lt (hlt p hp))
    · intro p hp
      rcases List.mem_append.mp hp with hp | hp
      · exact Nat.lt_trans (hlt p hp) (Nat.lt_succ_self _)
      · rw [List.mem_singleton.mp hp]
        exact Nat.lt_succ_self _
    · intro u c
      unfold pairCount
      rw [List.filter_append, List.length_append]
      by_cases hrow : ((userId == u) && (b.conceptId == c)) = true
      · rcases Bool.and_eq_true_iff.mp hrow with ⟨hu, hc⟩
        have hu2 : userId = u := by simpa using hu
        have hc2 : b.conceptId = c := by simpa using hc
        have h0 : s.userProgress.filter (fun p => p.userId == u && p.conceptId == c) = [] := by
          rw [List.filter_eq_nil_iff]
          intro p hp hmatch
          apply List.find?_eq_none.mp hfind p hp
          rcases Bool.and_eq_true_iff.mp hmatch with ⟨h1, h2⟩
          refine Bool.and_eq_true_iff.mpr ⟨?_, ?_⟩
          · rw [hu2]; exact h1
          · rw [hc2]; exact h2
        rw [h0]
        simp [hrow]
      · have hrowf : ((userId == u) && (b.conceptId == c)) = false := by simpa using hrow
        have h1 : pairCount s u c ≤ 1 := hpair u c
        unfold pairCount at h1
        simpa [List.filter_cons, hrowf] using h1
  | some ex =>
    unfold MemStorage.getUserProgressForConcept at hfind
    have hexp := List.find?_some hfind
    have hexmem := List.mem_of_find?_eq_some hfind
    rcases Bool.and_eq_true_iff.mp hexp with ⟨hexu, hexc⟩
    have hexu2 : ex.userId = userId := by simpa using hexu
    have hexc2 : ex.conceptId = b.conceptId := by simpa using hexc
    show ProgressWF (MemStorage.updateUserProgress s ex.id
      { userId := some userId, conceptId := some b.conceptId,
        isLearned := b.isLearned, learnedAt := b.learnedAt }).2
    unfold MemStorage.updateUserProgress
    cases hfind2 : s.userProgress.find? (fun p => p.id == ex.id) with
    | none => exact ⟨hnd, hlt, hpair⟩
    | some ex2 =>
      have hex2beq := List.find?_some hfind2
      have hex2id : ex2.id = ex.id := by simpa using hex2beq
      have hex2mem := List.mem_of_find?_eq_some hfind2
      have hany : s.userProgress.any (fun x => UserProgress.id x == ex.id) = true :=
        List.any_eq_true.mpr ⟨ex, hexmem, by simp⟩
      show ProgressWF { s with
        userProgress := mapSet UserProgress.id ex.id
          (mergeProgress ex2
            { userId := some userId, conceptId := some b.conceptId,
              isLearned := b.isLearned, learnedAt := b.learnedAt }) s.userProgress }
      rw [ProgressWF, mapSet_of_any UserProgress.id ex.id _ s.userProgress hany]
      have hgid : ∀ x ∈ s.userProgress,
          (if x.id == ex.id then
            mergeProgress ex2
              { userId := some userId, conceptId := some b.conceptId,
                isLearned := b.isLearned, learnedAt := b.learnedAt }
          else x).id = x.id := by
        intro x hx
        by_cases hxid : x.id = ex.id
        · rw [if_pos (by simpa using hxid)]
          show ex2.id = x.id
          rw [hex2id, hxid]
        · rw [if_neg (by simpa using hxid)]
      refine ⟨?_, ?_, ?_⟩
      · have hmapeq : (s.userProgress.map (fun x =>
            if x.id == ex.id then
              mergeProgress ex2
                { userId := some userId, conceptId := some b.conceptId,
                  isLearned := b.isLearned, learnedAt := b.learnedAt }
            else x)).map UserProgress.id = s.userProgress.map UserProgress.id := by
          rw [List.map_map]
          exact List.map_congr_left hgid
        rw [hmapeq]
        exact hnd
      · intro p hp
        rcases List.mem_map.mp hp with ⟨x, hx, rfl⟩
        rw [hgid x hx]
        exact hlt x hx
      · intro u c
        unfold pairCount
        rw [length_filter_map_congr _ _ s.userProgress ?_]
        · exact hpair u c
        · intro x hx
          by_cases hxid : x.id = ex.id
          · have hxex : x = ex :=
              List.inj_on_of_nodup_map hnd hx hexmem (by rw [hxid])
            rw [if_pos (by simpa using hxid)]
            show ((userId == u) && (b.conceptId == c)) = _
            rw [hxex, hexu2, hexc2]
          · rw [if_neg (by simpa using hxid)]

theorem routePostProgress_pair_unique_witness :
    ProgressWF emptyMem
    ∧ ProgressWF (routePostProgress emptyMem 1
        { conceptId := 1, isLearned := some true, learnedAt := none }).2 :=
  ⟨⟨by simp [emptyMem], by simp [emptyMem], fun u c => by simp [pairCount, emptyMem]⟩,
   routePostProgress_pair_unique emptyMem 1
     { conceptId := 1, isLearned := some true, learnedAt := none }
     ⟨by simp [emptyMem], by simp [emptyMem], fun u c => by simp [pairCount, emptyMem]⟩⟩

end Knowledge
